import Mathlib

/-!
Shallow embedding of the metriki metrics registry
(src/metriki-core/src/registry.rs) together with proofs about its
get-or-create accessors, gauge registration, snapshot pipeline and
metrics-set lifecycle.

Modelling conventions:
* `Arc<T>` handles are modelled by natural-number ids into an explicit
  heap of instrument records; cloning a handle copies the id, so two
  handles share an instrument exactly when their ids are equal.
* `HashMap<String, _>` is modelled by an association list with unique
  keys; `insert` replaces the value of an existing key in place and
  appends unseen keys. Iteration of the real hash map is in an
  unspecified order: where the order is observable (collisions across
  metric sets in `snapshots`) it is an explicit parameter ranging over
  the permutations of the entries (`snapshotsWith`); elsewhere the
  list (insertion) order stands in for it.
* A panic is modelled by `Except.error`; a panicking call returns no
  handle and (in the operation semantics `step`) leaves the state
  unchanged, since the read guard held at the panic site does not
  poison the lock for later writers in this model.
-/

namespace Metriki

/-- Modelled from the spec: the closed set of instrument kinds
(Counter, Meter, Histogram, Timer, Gauge) of crate::metrics, which is
not under src/. -/
inductive MetricKind where
  | counter
  | meter
  | histogram
  | timer
  | gauge
  deriving DecidableEq, Repr

/-- Modelled from the spec: an instrument object (the target of an
`Arc`); `marks` is its observable mutable state (mark/increment count)
and `fnId` identifies the wrapped value function when the instrument
is a gauge. -/
structure Instr where
  kind : MetricKind
  marks : Nat
  fnId : Nat
  deriving DecidableEq, Repr

/-- Modelled from the spec: the tagged union `Metric` of
crate::metrics (not under src/), each variant wrapping a shared
handle to one instrument, modelled as a heap id. -/
inductive Metric where
  | counter (id : Nat)
  | meter (id : Nat)
  | histogram (id : Nat)
  | timer (id : Nat)
  | gauge (id : Nat)
  deriving DecidableEq, Repr

/-- The kind tag of a metric variant. -/
def Metric.kind : Metric → MetricKind
  | .counter _ => .counter
  | .meter _ => .meter
  | .histogram _ => .histogram
  | .timer _ => .timer
  | .gauge _ => .gauge

/-- Lookup in an association list (model of `HashMap::get`). -/
def alGet {β : Type} : List (String × β) → String → Option β
  | [], _ => none
  | kv :: rest, k => if kv.1 = k then some kv.2 else alGet rest k

/-- Insertion in an association list (model of `HashMap::insert`):
replaces the value of an existing key in place, appends a new key. -/
def alInsert {β : Type} : List (String × β) → String → β → List (String × β)
  | [], k, v => [(k, v)]
  | kv :: rest, k, v => if kv.1 = k then (k, v) :: rest else kv :: alInsert rest k v

/-- Removal from an association list (model of `HashMap::remove`). -/
def alRemove {β : Type} : List (String × β) → String → List (String × β)
  | [], _ => []
  | kv :: rest, k => if kv.1 = k then rest else kv :: alRemove rest k

/-- The keys of an association list. -/
def keys {β : Type} (m : List (String × β)) : List String :=
  m.map Prod.fst

/-- The guarded state `Inner` of the registry (registry.rs lines
30-34) plus the filter field of `MetricsRegistry` and the instrument
heap: `metrics` is the static name-to-metric map, `msets` maps each
metrics-set registration name to the mapping its `get_all` produces
(a `MetricsSet` provider, whose trait is not under src/, is modelled
from the spec by that produced mapping), `filter` is the optional
predicate of `MetricsFilter` (trait not under src/, modelled from the
spec as a boolean predicate on name and metric). Fresh instruments are
allocated at id `heap.length`. -/
structure RegState where
  metrics : List (String × Metric)
  msets : List (String × List (String × Metric))
  filter : Option (String → Metric → Bool)
  heap : List Instr

/-- `MetricsRegistry::default()` / `new()`: everything empty. -/
def emptyRegistry : RegState :=
  { metrics := [], msets := [], filter := none, heap := [] }

/-- The panic message of the four get-or-create accessors. -/
def kindMismatchMsg : String :=
  "A metric with same name and different type is already registered."

/-- Read-lock phase of `MetricsRegistry::meter` (registry.rs lines
56-63): look the name up; a hit of the right kind yields the cloned
handle, a hit of a different kind panics. -/
def meterLookup (s : RegState) (name : String) : Option (Except String Nat) :=
  (alGet s.metrics name).map fun metric =>
    match metric with
    | .meter m => .ok m
    | _ => .error kindMismatchMsg

/-- Write-lock phase of `MetricsRegistry::meter` (registry.rs lines
68-73): construct a fresh meter, insert it, return its handle. -/
def meterInsertNew (s : RegState) (name : String) : Nat × RegState :=
  let id := s.heap.length
  (id, { s with
          heap := s.heap ++ [⟨.meter, 0, 0⟩],
          metrics := alInsert s.metrics name (.meter id) })

/-- `MetricsRegistry::meter` (registry.rs lines 55-75): the read
phase followed, on a miss, by the write phase. -/
def meter (s : RegState) (name : String) : Except String (Nat × RegState) :=
  match meterLookup s name with
  | some (.ok m) => .ok (m, s)
  | some (.error e) => .error e
  | none => .ok (meterInsertNew s name)

/-- `MetricsRegistry::histogram` (registry.rs lines 85-105). -/
def histogram (s : RegState) (name : String) : Except String (Nat × RegState) :=
  let histo : Option (Except String Nat) := (alGet s.metrics name).map fun metric =>
    match metric with
    | .histogram m => .ok m
    | _ => .error kindMismatchMsg
  match histo with
  | some (.ok m) => .ok (m, s)
  | some (.error e) => .error e
  | none =>
    let id := s.heap.length
    .ok (id, { s with
                heap := s.heap ++ [⟨.histogram, 0, 0⟩],
                metrics := alInsert s.metrics name (.histogram id) })

/-- `MetricsRegistry::counter` (registry.rs lines 114-134). -/
def counter (s : RegState) (name : String) : Except String (Nat × RegState) :=
  let c : Option (Except String Nat) := (alGet s.metrics name).map fun metric =>
    match metric with
    | .counter m => .ok m
    | _ => .error kindMismatchMsg
  match c with
  | some (.ok m) => .ok (m, s)
  | some (.error e) => .error e
  | none =>
    let id := s.heap.length
    .ok (id, { s with
                heap := s.heap ++ [⟨.counter, 0, 0⟩],
                metrics := alInsert s.metrics name (.counter id) })

/-- `MetricsRegistry::timer` (registry.rs lines 144-164). -/
def timer (s : RegState) (name : String) : Except String (Nat × RegState) :=
  let t : Option (Except String Nat) := (alGet s.metrics name).map fun metric =>
    match metric with
    | .timer m => .ok m
    | _ => .error kindMismatchMsg
  match t with
  | some (.ok m) => .ok (m, s)
  | some (.error e) => .error e
  | none =>
    let id := s.heap.length
    .ok (id, { s with
                heap := s.heap ++ [⟨.timer, 0, 0⟩],
                metrics := alInsert s.metrics name (.timer id) })

/-- `MetricsRegistry::gauge` (registry.rs lines 169-174): wrap the
function (identified by `func`) in a fresh Gauge and insert it
unconditionally. -/
def gauge (s : RegState) (name : String) (func : Nat) : RegState :=
  let id := s.heap.length
  { s with
      heap := s.heap ++ [⟨.gauge, 0, func⟩],
      metrics := alInsert s.metrics name (.gauge id) }

/-- `filter.map(|f| f.accept(k, v)).unwrap_or(true)` (registry.rs
lines 187 and 194): absence of a filter accepts everything. -/
def acceptOf (filter : Option (String → Metric → Bool)) (k : String) (v : Metric) : Bool :=
  match filter with
  | some f => f k v
  | none => true

/-- One filtering-insertion loop of `snapshots` (registry.rs lines
186-190 and 193-197): fold a map into the accumulated results,
inserting exactly the accepted pairs. -/
def foldIns (accept : String → Metric → Bool) (acc l : List (String × Metric)) :
    List (String × Metric) :=
  l.foldl (fun a kv => if accept kv.1 kv.2 then alInsert a kv.1 kv.2 else a) acc

/-- `MetricsRegistry::snapshots` (registry.rs lines 180-201): fold the
static map into an empty result, then every metric set's `get_all`
output. `HashMap::values()` iterates in an unspecified order; this
instance fixes it to insertion order — `snapshotsWith` below takes
the iteration order as an explicit parameter for the one place where
the order matters (collisions across metric sets). -/
def snapshots (s : RegState) : List (String × Metric) :=
  s.msets.foldl (fun acc nm => foldIns (acceptOf s.filter) acc nm.2)
    (foldIns (acceptOf s.filter) [] s.metrics)

/-- `snapshots` as an operation on the registry: the call holds only
the read lock, so it returns its result next to the untouched state. -/
def snapshotsRun (s : RegState) : List (String × Metric) × RegState :=
  (snapshots s, s)

/-- `MetricsRegistry::set_filter` (registry.rs lines 206-208). -/
def set_filter (s : RegState) (f : Option (String → Metric → Bool)) : RegState :=
  { s with filter := f }

/-- `MetricsRegistry::register_metrics_set` (registry.rs lines
218-221). -/
def register_metrics_set (s : RegState) (name : String)
    (mset : List (String × Metric)) : RegState :=
  { s with msets := alInsert s.msets name mset }

/-- `MetricsRegistry::unregister_metrics_set` (registry.rs lines
224-227). -/
def unregister_metrics_set (s : RegState) (name : String) : RegState :=
  { s with msets := alRemove s.msets name }

/-- Modelled from the spec: `Meter::mark` / instrument mutation
through a handle (crate::metrics is not under src/) — bump the
observable state of the instrument at the given heap id. -/
def markHeap : List Instr → Nat → List Instr
  | [], _ => []
  | i :: rest, 0 => { i with marks := i.marks + 1 } :: rest
  | i :: rest, n + 1 => i :: markHeap rest n

/-- Mutate (mark once) the instrument a handle refers to. -/
def mark (s : RegState) (id : Nat) : RegState :=
  { s with heap := markHeap s.heap id }

/-- The observable state of the instrument behind a handle. -/
def marksOf (s : RegState) (id : Nat) : Nat :=
  ((s.heap[id]?).map Instr.marks).getD 0

/-- The kind a name is currently bound to in the static map. -/
def metricKindAt (s : RegState) (n : String) : Option MetricKind :=
  (alGet s.metrics n).map Metric.kind

/-- The id of the value function of the gauge a name is bound to. -/
def gaugeFnAt (s : RegState) (n : String) : Option Nat :=
  match alGet s.metrics n with
  | some (.gauge id) => (s.heap[id]?).map Instr.fnId
  | _ => none

/-- The public operations of the registry, for stating invariants
over arbitrary call sequences. -/
inductive Op where
  | meterOp (n : String)
  | histogramOp (n : String)
  | counterOp (n : String)
  | timerOp (n : String)
  | gaugeOp (n : String) (func : Nat)
  | setFilterOp (f : Option (String → Metric → Bool))
  | registerSetOp (n : String) (m : List (String × Metric))
  | unregisterSetOp (n : String)
  | snapshotsOp

/-- State effect of one operation; a panicking accessor leaves the
state unchanged. -/
def step (s : RegState) : Op → RegState
  | .meterOp n => match meter s n with | .ok p => p.2 | .error _ => s
  | .histogramOp n => match histogram s n with | .ok p => p.2 | .error _ => s
  | .counterOp n => match counter s n with | .ok p => p.2 | .error _ => s
  | .timerOp n => match timer s n with | .ok p => p.2 | .error _ => s
  | .gaugeOp n f => gauge s n f
  | .setFilterOp f => set_filter s f
  | .registerSetOp n m => register_metrics_set s n m
  | .unregisterSetOp n => unregister_metrics_set s n
  | .snapshotsOp => (snapshotsRun s).2

/-- State effect of a sequence of operations. -/
def steps (s : RegState) (ops : List Op) : RegState :=
  ops.foldl step s

/-- Whether an operation is a gauge registration under the given
name. -/
def Op.isGaugeOn : Op → String → Bool
  | .gaugeOp n _, m => n = m
  | _, _ => false

/-- The static-map name an operation binds, if any. -/
def Op.staticName : Op → Option String
  | .meterOp n => some n
  | .histogramOp n => some n
  | .counterOp n => some n
  | .timerOp n => some n
  | .gaugeOp n _ => some n
  | _ => none

/-- The last accepted value bound to `n` in a list of pairs: this is
what a left fold of filtered insertions leaves at key `n`. -/
def lastHit (accept : String → Metric → Bool) (n : String) :
    List (String × Metric) → Option Metric
  | [] => none
  | kv :: rest =>
    match lastHit accept n rest with
    | some v => some v
    | none => if kv.1 = n ∧ accept kv.1 kv.2 = true then some kv.2 else none

/-- The last accepted value produced for `n` across a list of metric
sets, sets folded in order and later sets taking precedence. -/
def msetLastHit (accept : String → Metric → Bool) (n : String) :
    List (String × List (String × Metric)) → Option Metric
  | [] => none
  | nm :: rest =>
    match msetLastHit accept n rest with
    | some v => some v
    | none => lastHit accept n nm.2

/-- The value for `n` produced by the last registered metric set that
produces `n` at all (no filtering). -/
def msetProducedLast (n : String) : List (String × List (String × Metric)) → Option Metric
  | [] => none
  | nm :: rest =>
    match msetProducedLast n rest with
    | some v => some v
    | none => alGet nm.2 n

theorem alGet_alInsert_self {β : Type} (m : List (String × β)) (k : String) (v : β) :
    alGet (alInsert m k v) k = some v := by
  induction m with
  | nil => simp [alInsert, alGet]
  | cons kv rest ih =>
    by_cases h : kv.1 = k
    · simp [alInsert, h, alGet]
    · simp [alInsert, h, alGet, ih]

theorem alGet_alInsert_ne {β : Type} (m : List (String × β)) (k k' : String) (v : β)
    (h : k ≠ k') : alGet (alInsert m k v) k' = alGet m k' := by
  induction m with
  | nil => simp [alInsert, alGet, h]
  | cons kv rest ih =>
    by_cases hk : kv.1 = k
    · simp [alInsert, hk, alGet, h, hk ▸ h]
    · simp [alInsert, hk, alGet, ih]

theorem alGet_of_not_mem {β : Type} (m : List (String × β)) (n : String)
    (h : n ∉ keys m) : alGet m n = none := by
  induction m with
  | nil => rfl
  | cons kv rest ih =>
    simp only [keys, List.map_cons, List.mem_cons] at h
    push_neg at h
    have h1 : kv.1 ≠ n := fun he => h.1 he.symm
    simp [alGet, h1, ih (by simpa [keys] using h.2)]

theorem alRemove_of_not_mem {β : Type} (m : List (String × β)) (n : String)
    (h : n ∉ keys m) : alRemove m n = m := by
  induction m with
  | nil => rfl
  | cons kv rest ih =>
    simp only [keys, List.map_cons, List.mem_cons] at h
    push_neg at h
    have h1 : kv.1 ≠ n := fun he => h.1 he.symm
    simp [alRemove, h1, ih (by simpa [keys] using h.2)]

theorem mem_alRemove {β : Type} (m : List (String × β)) (n : String) (p : String × β)
    (hp : p ∈ alRemove m n) : p ∈ m := by
  induction m with
  | nil => simp [alRemove] at hp
  | cons kv rest ih =>
    by_cases hk : kv.1 = n
    · simp only [alRemove, if_pos hk] at hp
      exact List.mem_cons_of_mem _ hp
    · simp only [alRemove, if_neg hk, List.mem_cons] at hp
      rcases hp with hp | hp
      · exact hp ▸ List.mem_cons_self _ _
      · exact List.mem_cons_of_mem _ (ih hp)

theorem foldIns_cons (accept : String → Metric → Bool) (acc : List (String × Metric))
    (kv : String × Metric) (l : List (String × Metric)) :
    foldIns accept acc (kv :: l)
      = foldIns accept (if accept kv.1 kv.2 then alInsert acc kv.1 kv.2 else acc) l := rfl

theorem alGet_foldIns (accept : String → Metric → Bool)
    (l acc : List (String × Metric)) (n : String) :
    alGet (foldIns accept acc l) n =
      match lastHit accept n l with
      | some v => some v
      | none => alGet acc n := by
  induction l generalizing acc with
  | nil => simp [foldIns, lastHit]
  | cons kv rest ih =>
    rw [foldIns_cons, ih]
    cases hl : lastHit accept n rest with
    | some v => simp [lastHit, hl]
    | none =>
      simp only [lastHit, hl]
      by_cases hk : kv.1 = n
      · subst hk
        by_cases ha : accept kv.1 kv.2 = true
        · simp [ha, alGet_alInsert_self]
        · simp only [Bool.not_eq_true] at ha
          simp [ha]
      · have h1 : ¬(kv.1 = n ∧ accept kv.1 kv.2 = true) := fun hc => hk hc.1
        rw [if_neg h1]
        by_cases ha : accept kv.1 kv.2 = true
        · simp [ha, alGet_alInsert_ne acc kv.1 n kv.2 hk]
        · simp only [Bool.not_eq_true] at ha
          simp [ha]

theorem alGet_foldSets (accept : String → Metric → Bool)
    (sets : List (String × List (String × Metric)))
    (acc : List (String × Metric)) (n : String) :
    alGet (sets.foldl (fun a nm => foldIns accept a nm.2) acc) n =
      match msetLastHit accept n sets with
      | some v => some v
      | none => alGet acc n := by
  induction sets generalizing acc with
  | nil => simp [msetLastHit]
  | cons nm rest ih =>
    rw [List.foldl_cons, ih]
    cases hr : msetLastHit accept n rest with
    | some v => simp [msetLastHit, hr]
    | none =>
      simp only [msetLastHit, hr]
      rw [alGet_foldIns]

/-- Per-name characterization of `snapshots`: the value at `n` is the
last accepted pair with key `n`, metric sets (in order) taking
precedence over the static map. -/
theorem alGet_snapshots (s : RegState) (n : String) :
    alGet (snapshots s) n =
      match msetLastHit (acceptOf s.filter) n s.msets with
      | some v => some v
      | none => lastHit (acceptOf s.filter) n s.metrics := by
  unfold snapshots
  rw [alGet_foldSets, alGet_foldIns]
  cases msetLastHit (acceptOf s.filter) n s.msets with
  | some v => rfl
  | none =>
    cases lastHit (acceptOf s.filter) n s.metrics with
    | some v => rfl
    | none => rfl

theorem lastHit_of_not_mem (accept : String → Metric → Bool) (n : String)
    (l : List (String × Metric)) (h : n ∉ keys l) : lastHit accept n l = none := by
  induction l with
  | nil => rfl
  | cons kv rest ih =>
    simp only [keys, List.map_cons, List.mem_cons] at h
    push_neg at h
    rw [lastHit, ih (by simpa [keys] using h.2)]
    have h1 : kv.1 ≠ n := fun he => h.1 he.symm
    simp [h1]

theorem lastHit_nodup (accept : String → Metric → Bool) (n : String)
    (l : List (String × Metric)) (h : (keys l).Nodup) :
    lastHit accept n l =
      match alGet l n with
      | some v => if accept n v then some v else none
      | none => none := by
  induction l with
  | nil => rfl
  | cons kv rest ih =>
    simp only [keys, List.map_cons, List.nodup_cons] at h
    by_cases hk : kv.1 = n
    · subst hk
      rw [lastHit, lastHit_of_not_mem accept kv.1 rest h.1, alGet]
      simp
    · rw [lastHit, ih h.2, alGet, if_neg hk]
      have h1 : ¬(kv.1 = n ∧ accept kv.1 kv.2 = true) := fun hc => hk hc.1
      cases halg : alGet rest n with
      | some v =>
        by_cases ha : accept n v = true
        · simp [ha]
        · simp only [Bool.not_eq_true] at ha
          simp [ha, h1]
      | none => simp [h1]

theorem lastHit_some_accepted (accept : String → Metric → Bool) (n : String)
    (l : List (String × Metric)) (v : Metric) (h : lastHit accept n l = some v) :
    accept n v = true := by
  induction l with
  | nil => simp [lastHit] at h
  | cons kv rest ih =>
    rw [lastHit] at h
    cases hr : lastHit accept n rest with
    | some w => rw [hr] at h; exact ih (hr.trans (by simpa using h))
    | none =>
      rw [hr] at h
      by_cases hc : kv.1 = n ∧ accept kv.1 kv.2 = true
      · rw [if_pos hc] at h
        cases h
        exact hc.1 ▸ hc.2
      · rw [if_neg hc] at h
        cases h

theorem msetLastHit_some_accepted (accept : String → Metric → Bool) (n : String)
    (sets : List (String × List (String × Metric))) (v : Metric)
    (h : msetLastHit accept n sets = some v) : accept n v = true := by
  induction sets with
  | nil => simp [msetLastHit] at h
  | cons nm rest ih =>
    rw [msetLastHit] at h
    cases hr : msetLastHit accept n rest with
    | some w => rw [hr] at h; exact ih (hr.trans (by simpa using h))
    | none =>
      rw [hr] at h
      exact lastHit_some_accepted accept n nm.2 v h

theorem alGet_isSome_iff_mem {β : Type} (m : List (String × β)) (n : String) :
    (alGet m n).isSome = true ↔ n ∈ keys m := by
  induction m with
  | nil => simp [alGet, keys]
  | cons kv rest ih =>
    by_cases hk : kv.1 = n
    · simp [alGet, hk, keys]
    · have h1 : ¬n = kv.1 := fun h => hk h.symm
      simp [alGet, hk, keys, h1]
      simpa [keys] using ih

theorem mem_keys_of_mem {β : Type} (m : List (String × β)) (p : String × β)
    (hp : p ∈ m) : p.1 ∈ keys m :=
  List.mem_map_of_mem Prod.fst hp

theorem mem_alInsert_self {β : Type} (m : List (String × β)) (k : String) (v : β) :
    (k, v) ∈ alInsert m k v := by
  induction m with
  | nil => simp [alInsert]
  | cons kv rest ih =>
    by_cases hk : kv.1 = k
    · simp [alInsert, hk]
    · simp only [alInsert, if_neg hk, List.mem_cons]
      exact Or.inr ih

theorem mem_keys_alInsert {β : Type} (m : List (String × β)) (k x : String) (v : β)
    (hx : x ∈ keys (alInsert m k v)) : x ∈ keys m ∨ x = k := by
  induction m with
  | nil => simpa [alInsert, keys] using hx
  | cons kv rest ih =>
    by_cases hk : kv.1 = k
    · simp only [alInsert, if_pos hk, keys, List.map_cons, List.mem_cons] at hx
      rcases hx with hx | hx
      · exact Or.inr hx
      · exact Or.inl (by simp [keys, List.mem_cons]; exact Or.inr (by simpa [keys] using hx))
    · simp only [alInsert, if_neg hk, keys, List.map_cons, List.mem_cons] at hx
      rcases hx with hx | hx
      · exact Or.inl (by simp [keys, hx])
      · rcases ih (by simpa [keys] using hx) with h | h
        · exact Or.inl (by simp [keys, List.mem_cons]; exact Or.inr (by simpa [keys] using h))
        · exact Or.inr h

theorem keys_alInsert_nodup {β : Type} (m : List (String × β)) (k : String) (v : β)
    (h : (keys m).Nodup) : (keys (alInsert m k v)).Nodup := by
  induction m with
  | nil => simp [alInsert, keys]
  | cons kv rest ih =>
    simp only [keys, List.map_cons, List.nodup_cons] at h
    by_cases hk : kv.1 = k
    · subst hk
      have hs : alInsert (kv :: rest) kv.1 v = (kv.1, v) :: rest := by
        simp [alInsert]
      rw [hs]
      simp only [keys, List.map_cons, List.nodup_cons]
      exact ⟨by simpa [keys] using h.1, h.2⟩
    · simp only [alInsert, if_neg hk, keys, List.map_cons, List.nodup_cons]
      refine ⟨fun hmem => ?_, by simpa [keys] using ih (by simpa [keys] using h.2)⟩
      rcases mem_keys_alInsert rest k kv.1 v (by simpa [keys] using hmem) with h' | h'
      · exact h.1 (by simpa [keys] using h')
      · exact hk h'

theorem lastHit_acceptAll_nodup (n : String) (l : List (String × Metric))
    (h : (keys l).Nodup) : lastHit (acceptOf none) n l = alGet l n := by
  rw [lastHit_nodup _ _ _ h]
  cases alGet l n with
  | none => rfl
  | some v => simp [acceptOf]

theorem msetLastHit_acceptAll_nodup (n : String)
    (sets : List (String × List (String × Metric)))
    (h : ∀ p ∈ sets, (keys p.2).Nodup) :
    msetLastHit (acceptOf none) n sets = msetProducedLast n sets := by
  induction sets with
  | nil => rfl
  | cons nm rest ih =>
    rw [msetLastHit, msetProducedLast,
      ih (fun p hp => h p (List.mem_cons_of_mem _ hp)),
      lastHit_acceptAll_nodup n nm.2 (h nm (List.mem_cons_self _ _))]

theorem lastHit_acceptAll_isSome (n : String) (l : List (String × Metric)) :
    (lastHit (acceptOf none) n l).isSome = true ↔ n ∈ keys l := by
  induction l with
  | nil => simp [lastHit, keys]
  | cons kv rest ih =>
    rw [lastHit]
    cases hr : lastHit (acceptOf none) n rest with
    | some v =>
      rw [hr] at ih
      simp only [Option.isSome_some, true_iff] at ih
      constructor
      · intro _
        exact List.mem_cons_of_mem _ ih
      · intro _
        rfl
    | none =>
      rw [hr] at ih
      simp only [Option.isSome_none, Bool.false_eq_true, false_iff] at ih
      by_cases hk : kv.1 = n
      · constructor
        · intro _
          exact List.mem_cons.mpr (Or.inl hk.symm)
        · intro _
          simp [hk, acceptOf]
      · have h1 : ¬(kv.1 = n ∧ acceptOf none kv.1 kv.2 = true) := fun hc => hk hc.1
        rw [if_neg h1]
        constructor
        · intro hfalse
          simp at hfalse
        · intro hmem
          rcases List.mem_cons.mp hmem with h | h
          · exact absurd h.symm hk
          · exact absurd h ih

theorem msetLastHit_acceptAll_isSome (n : String)
    (sets : List (String × List (String × Metric))) :
    (msetLastHit (acceptOf none) n sets).isSome = true ↔ ∃ p ∈ sets, n ∈ keys p.2 := by
  induction sets with
  | nil => simp [msetLastHit]
  | cons nm rest ih =>
    rw [msetLastHit]
    cases hr : msetLastHit (acceptOf none) n rest with
    | some v =>
      rw [hr] at ih
      simp only [Option.isSome_some, true_iff] at ih
      simp only [Option.isSome_some, true_iff]
      obtain ⟨p, hp, hm⟩ := ih
      exact ⟨p, List.mem_cons_of_mem _ hp, hm⟩
    | none =>
      rw [hr] at ih
      simp only [Option.isSome_none, Bool.false_eq_true, false_iff] at ih
      rw [lastHit_acceptAll_isSome]
      constructor
      · intro hm
        exact ⟨nm, List.mem_cons_self _ _, hm⟩
      · rintro ⟨p, hp, hm⟩
        rcases List.mem_cons.mp hp with h | h
        · exact h ▸ hm
        · exact absurd ⟨p, h, hm⟩ ih

theorem lastHit_of_none_forall (accept : String → Metric → Bool) (n : String)
    (sets : List (String × List (String × Metric)))
    (h : ∀ q ∈ sets, n ∉ keys q.2) : msetLastHit accept n sets = none := by
  induction sets with
  | nil => rfl
  | cons nm rest ih =>
    rw [msetLastHit, ih (fun q hq => h q (List.mem_cons_of_mem _ hq)),
      lastHit_of_not_mem accept n nm.2 (h nm (List.mem_cons_self _ _))]

theorem not_fst_eq_of_mem_alRemove {β : Type} (m : List (String × β)) (r : String)
    (q : String × β) (hn : (keys m).Nodup) (hq : q ∈ alRemove m r) : q.1 ≠ r := by
  induction m with
  | nil => simp [alRemove] at hq
  | cons kv rest ih =>
    simp only [keys, List.map_cons, List.nodup_cons] at hn
    by_cases hk : kv.1 = r
    · rw [alRemove, if_pos hk] at hq
      intro he
      have hmem : q.1 ∈ keys rest := mem_keys_of_mem rest q hq
      rw [he, ← hk] at hmem
      exact hn.1 (by simpa [keys] using hmem)
    · rw [alRemove, if_neg hk] at hq
      rcases List.mem_cons.mp hq with h | h
      · exact h ▸ hk
      · exact ih (by simpa [keys] using hn.2) h

theorem foldIns_filter (accept : String → Metric → Bool)
    (l acc : List (String × Metric)) :
    foldIns accept acc l
      = foldIns (acceptOf none) acc (l.filter fun kv => accept kv.1 kv.2) := by
  induction l generalizing acc with
  | nil => rfl
  | cons kv rest ih =>
    rw [foldIns_cons]
    by_cases ha : accept kv.1 kv.2 = true
    · have hf : List.filter (fun kv => accept kv.1 kv.2) (kv :: rest)
          = kv :: List.filter (fun kv => accept kv.1 kv.2) rest := by
        simp [List.filter_cons, ha]
      rw [if_pos ha, hf, foldIns_cons, if_pos (show acceptOf none kv.1 kv.2 = true from rfl)]
      exact ih _
    · simp only [Bool.not_eq_true] at ha
      have hf : List.filter (fun kv => accept kv.1 kv.2) (kv :: rest)
          = List.filter (fun kv => accept kv.1 kv.2) rest := by
        simp [List.filter_cons, ha]
      rw [if_neg (by simp [ha]), hf]
      exact ih _

theorem foldSets_filter (accept : String → Metric → Bool)
    (sets : List (String × List (String × Metric)))
    (acc : List (String × Metric)) :
    sets.foldl (fun a nm => foldIns accept a nm.2) acc
      = sets.foldl
          (fun a nm => foldIns (acceptOf none) a (nm.2.filter fun kv => accept kv.1 kv.2))
          acc := by
  induction sets generalizing acc with
  | nil => rfl
  | cons nm rest ih =>
    rw [List.foldl_cons, List.foldl_cons, foldIns_filter, ih]

/-- C10: `snapshots` is read-only on the registry: run as an
operation it leaves the static metric map, the metric-set map, the
filter and the instrument heap exactly as they were, and its result
is the pure function `snapshots` of the pre-call state, hence a
detached value no later registry operation can affect. -/
theorem c10_snapshots_readonly (s : RegState) :
    (snapshotsRun s).2.metrics = s.metrics ∧
    (snapshotsRun s).2.msets = s.msets ∧
    (snapshotsRun s).2.filter = s.filter ∧
    (snapshotsRun s).2.heap = s.heap ∧
    (snapshotsRun s).1 = snapshots s :=
  ⟨rfl, rfl, rfl, rfl, rfl⟩

/-- A registry holding exactly one meter named "m". -/
def oneMeterReg : RegState :=
  { metrics := [("m", Metric.meter 0)], msets := [], filter := none,
    heap := [⟨.meter, 0, 0⟩] }

/-- A registry holding exactly one histogram named "h". -/
def oneHistogramReg : RegState :=
  { metrics := [("h", Metric.histogram 0)], msets := [], filter := none,
    heap := [⟨.histogram, 0, 0⟩] }

/-- A registry holding exactly one counter named "c". -/
def oneCounterReg : RegState :=
  { metrics := [("c", Metric.counter 0)], msets := [], filter := none,
    heap := [⟨.counter, 0, 0⟩] }

/-- A registry holding exactly one timer named "t". -/
def oneTimerReg : RegState :=
  { metrics := [("t", Metric.timer 0)], msets := [], filter := none,
    heap := [⟨.timer, 0, 0⟩] }

/-- A registry holding exactly one gauge named "n". -/
def oneGaugeReg : RegState :=
  { metrics := [("n", Metric.gauge 0)], msets := [], filter := none,
    heap := [⟨.gauge, 0, 0⟩] }

/-- A registry holding exactly one counter named "g". -/
def oneCounterGReg : RegState :=
  { metrics := [("g", Metric.counter 0)], msets := [], filter := none,
    heap := [⟨.counter, 0, 0⟩] }

/-- C1: for each kind K among Counter, Meter, Histogram and Timer, a
successful get-or-create call determines the second call with the
same name: it returns the very same handle (the same underlying
instrument, so mutations through either handle hit the same heap
cell) and the very same state, so the stored entry is not replaced. -/
theorem c1_get_or_create_stable (s s' : RegState) (n : String) (h : Nat) :
    (meter s n = .ok (h, s') → meter s' n = .ok (h, s')) ∧
    (histogram s n = .ok (h, s') → histogram s' n = .ok (h, s')) ∧
    (counter s n = .ok (h, s') → counter s' n = .ok (h, s')) ∧
    (timer s n = .ok (h, s') → timer s' n = .ok (h, s')) := by
  refine ⟨fun hm => ?_, fun hm => ?_, fun hm => ?_, fun hm => ?_⟩
  · cases halg : alGet s.metrics n with
    | none =>
      simp only [meter, meterLookup, halg, Option.map_none', Except.ok.injEq] at hm
      have hh : h = (meterInsertNew s n).1 := by rw [hm]
      have hs : s' = (meterInsertNew s n).2 := by rw [hm]
      subst hh
      subst hs
      simp [meter, meterLookup, meterInsertNew, alGet_alInsert_self]
    | some m =>
      cases m with
      | meter i =>
        simp only [meter, meterLookup, halg, Option.map_some', Except.ok.injEq,
          Prod.mk.injEq] at hm
        obtain ⟨hh, hs⟩ := hm
        subst hh
        subst hs
        simp [meter, meterLookup, halg]
      | counter i => exact absurd hm (by simp [meter, meterLookup, halg])
      | histogram i => exact absurd hm (by simp [meter, meterLookup, halg])
      | timer i => exact absurd hm (by simp [meter, meterLookup, halg])
      | gauge i => exact absurd hm (by simp [meter, meterLookup, halg])
  · cases halg : alGet s.metrics n with
    | none =>
      simp only [histogram, halg, Option.map_none', Except.ok.injEq, Prod.mk.injEq] at hm
      obtain ⟨hh, hs⟩ := hm
      subst hh
      subst hs
      simp [histogram, alGet_alInsert_self]
    | some m =>
      cases m with
      | histogram i =>
        simp only [histogram, halg, Option.map_some', Except.ok.injEq,
          Prod.mk.injEq] at hm
        obtain ⟨hh, hs⟩ := hm
        subst hh
        subst hs
        simp [histogram, halg]
      | counter i => exact absurd hm (by simp [histogram, halg])
      | meter i => exact absurd hm (by simp [histogram, halg])
      | timer i => exact absurd hm (by simp [histogram, halg])
      | gauge i => exact absurd hm (by simp [histogram, halg])
  · cases halg : alGet s.metrics n with
    | none =>
      simp only [counter, halg, Option.map_none', Except.ok.injEq, Prod.mk.injEq] at hm
      obtain ⟨hh, hs⟩ := hm
      subst hh
      subst hs
      simp [counter, alGet_alInsert_self]
    | some m =>
      cases m with
      | counter i =>
        simp only [counter, halg, Option.map_some', Except.ok.injEq,
          Prod.mk.injEq] at hm
        obtain ⟨hh, hs⟩ := hm
        subst hh
        subst hs
        simp [counter, halg]
      | histogram i => exact absurd hm (by simp [counter, halg])
      | meter i => exact absurd hm (by simp [counter, halg])
      | timer i => exact absurd hm (by simp [counter, halg])
      | gauge i => exact absurd hm (by simp [counter, halg])
  · cases halg : alGet s.metrics n with
    | none =>
      simp only [timer, halg, Option.map_none', Except.ok.injEq, Prod.mk.injEq] at hm
      obtain ⟨hh, hs⟩ := hm
      subst hh
      subst hs
      simp [timer, alGet_alInsert_self]
    | some m =>
      cases m with
      | timer i =>
        simp only [timer, halg, Option.map_some', Except.ok.injEq,
          Prod.mk.injEq] at hm
        obtain ⟨hh, hs⟩ := hm
        subst hh
        subst hs
        simp [timer, halg]
      | histogram i => exact absurd hm (by simp [timer, halg])
      | meter i => exact absurd hm (by simp [timer, halg])
      | counter i => exact absurd hm (by simp [timer, halg])
      | gauge i => exact absurd hm (by simp [timer, halg])

/-- Witness for C1: after a first call on the empty registry created
each instrument, the second call of each accessor returns the same
handle and the same state. -/
theorem c1_witness :
    meter oneMeterReg "m" = .ok (0, oneMeterReg) ∧
    histogram oneHistogramReg "h" = .ok (0, oneHistogramReg) ∧
    counter oneCounterReg "c" = .ok (0, oneCounterReg) ∧
    timer oneTimerReg "t" = .ok (0, oneTimerReg) :=
  ⟨(c1_get_or_create_stable emptyRegistry oneMeterReg "m" 0).1 rfl,
   (c1_get_or_create_stable emptyRegistry oneHistogramReg "h" 0).2.1 rfl,
   (c1_get_or_create_stable emptyRegistry oneCounterReg "c" 0).2.2.1 rfl,
   (c1_get_or_create_stable emptyRegistry oneTimerReg "t" 0).2.2.2 rfl⟩

/-- C2: when a name is bound to a metric of a kind other than the
requested one, the get-or-create accessor panics (returns the kind
mismatch error), returns no handle, and — as an operation — leaves
the registry state unchanged. -/
theorem c2_kind_mismatch_fatal (s : RegState) (n : String) (m : Metric)
    (hbound : alGet s.metrics n = some m) :
    (m.kind ≠ .meter →
      meter s n = .error kindMismatchMsg ∧ step s (.meterOp n) = s) ∧
    (m.kind ≠ .histogram →
      histogram s n = .error kindMismatchMsg ∧ step s (.histogramOp n) = s) ∧
    (m.kind ≠ .counter →
      counter s n = .error kindMismatchMsg ∧ step s (.counterOp n) = s) ∧
    (m.kind ≠ .timer →
      timer s n = .error kindMismatchMsg ∧ step s (.timerOp n) = s) := by
  cases m <;>
    simp [Metric.kind, meter, meterLookup, histogram, counter, timer, step, hbound]

/-- Witness for C2 at a concrete registry whose name "n" is bound to
a Gauge: all four accessors fail with the kind-mismatch panic and the
state is unchanged. -/
theorem c2_witness :
    (meter oneGaugeReg "n" = .error kindMismatchMsg ∧
      step oneGaugeReg (.meterOp "n") = oneGaugeReg) ∧
    (histogram oneGaugeReg "n" = .error kindMismatchMsg ∧
      step oneGaugeReg (.histogramOp "n") = oneGaugeReg) ∧
    (counter oneGaugeReg "n" = .error kindMismatchMsg ∧
      step oneGaugeReg (.counterOp "n") = oneGaugeReg) ∧
    (timer oneGaugeReg "n" = .error kindMismatchMsg ∧
      step oneGaugeReg (.timerOp "n") = oneGaugeReg) :=
  ⟨(c2_kind_mismatch_fatal oneGaugeReg "n" (Metric.gauge 0) rfl).1 (by decide),
   (c2_kind_mismatch_fatal oneGaugeReg "n" (Metric.gauge 0) rfl).2.1 (by decide),
   (c2_kind_mismatch_fatal oneGaugeReg "n" (Metric.gauge 0) rfl).2.2.1 (by decide),
   (c2_kind_mismatch_fatal oneGaugeReg "n" (Metric.gauge 0) rfl).2.2.2 (by decide)⟩

/-- C3: gauge registration unconditionally binds the name to a fresh
Gauge wrapping the given value function, replacing any prior entry of
any kind, touching no other name; registering twice leaves only the
second function observable, and (with no metric sets, no filter and
hash-map key uniqueness) the new gauge is what a subsequent snapshot
shows under the name. -/
theorem c3_gauge_replaces (s : RegState) (n : String) (f : Nat) :
    metricKindAt (gauge s n f) n = some .gauge ∧
    gaugeFnAt (gauge s n f) n = some f ∧
    (∀ n', n' ≠ n → alGet (gauge s n f).metrics n' = alGet s.metrics n') ∧
    (s.msets = [] → s.filter = none → (keys s.metrics).Nodup →
      alGet (snapshots (gauge s n f)) n = some (Metric.gauge s.heap.length)) := by
  refine ⟨?_, ?_, fun n' hne => ?_, fun hms hf hnd => ?_⟩
  · simp [metricKindAt, gauge, alGet_alInsert_self, Metric.kind]
  · simp only [gaugeFnAt, gauge, alGet_alInsert_self]
    rw [List.getElem?_concat_length]
    rfl
  · simp only [gauge]
    exact alGet_alInsert_ne s.metrics n n' (Metric.gauge s.heap.length) (fun h => hne h.symm)
  · rw [alGet_snapshots]
    simp only [gauge, hms, hf]
    rw [show msetLastHit (acceptOf none) n [] = none from rfl]
    rw [lastHit_acceptAll_nodup n _ (keys_alInsert_nodup s.metrics n _ hnd),
      alGet_alInsert_self]

/-- Fold-of-filtered-insertions over metric sets: filtering during
the fold equals pre-filtering each produced mapping and folding with
the accept-all predicate. -/
theorem foldSets_filter_map (accept : String → Metric → Bool)
    (sets : List (String × List (String × Metric)))
    (acc : List (String × Metric)) :
    sets.foldl (fun a nm => foldIns accept a nm.2) acc
      = (sets.map fun nm => (nm.1, nm.2.filter fun kv => accept kv.1 kv.2)).foldl
          (fun a nm => foldIns (acceptOf none) a nm.2) acc := by
  induction sets generalizing acc with
  | nil => rfl
  | cons nm rest ih =>
    rw [List.map_cons, List.foldl_cons, List.foldl_cons, foldIns_filter, ih]

/-- `MetricsRegistry::snapshots` with the iteration order of
`inner.mset.values()` made explicit: `std::collections::HashMap`
iterates in an unspecified order, so the loop of registry.rs lines
191-198 visits the registered sets in some arbitrary order — an
admissible order is any permutation of the registered sets.
`snapshots` itself is the instance of this loop at insertion order. -/
def snapshotsWith (order : List (String × List (String × Metric)))
    (s : RegState) : List (String × Metric) :=
  order.foldl (fun acc nm => foldIns (acceptOf s.filter) acc nm.2)
    (foldIns (acceptOf s.filter) [] s.metrics)

/-- Per-name characterization of the order-explicit snapshot. -/
theorem alGet_snapshotsWith (order : List (String × List (String × Metric)))
    (s : RegState) (n : String) :
    alGet (snapshotsWith order s) n =
      match msetLastHit (acceptOf s.filter) n order with
      | some v => some v
      | none => lastHit (acceptOf s.filter) n s.metrics := by
  unfold snapshotsWith
  rw [alGet_foldSets, alGet_foldIns]
  cases msetLastHit (acceptOf s.filter) n order with
  | some v => rfl
  | none =>
    cases lastHit (acceptOf s.filter) n s.metrics with
    | some v => rfl
    | none => rfl

/-- A registry with a static "x" and two metric sets, "s1" registered
before "s2", both producing "x". -/
def collideReg : RegState :=
  { metrics := [("x", Metric.counter 0)],
    msets := [("s1", [("x", Metric.meter 1)]), ("s2", [("x", Metric.meter 2)])],
    filter := none, heap := [] }

/-- C4 counterexample: the reversed list is an admissible iteration
order of the metric-set hash map (a permutation of the registered
sets), and under it the snapshot keeps the value produced by "s1" —
the set registered first — at the colliding name "x", not the value
of the set registered last: the code fixes no registration-order
guarantee across metric sets. -/
theorem c4_counterexample :
    List.Perm [("s2", [("x", Metric.meter 2)]), ("s1", [("x", Metric.meter 1)])]
      collideReg.msets ∧
    alGet (snapshotsWith
      [("s2", [("x", Metric.meter 2)]), ("s1", [("x", Metric.meter 1)])]
      collideReg) "x" = some (Metric.meter 1) ∧
    some (Metric.meter 1) ≠ some (Metric.meter 2) :=
  ⟨by decide, by decide, by decide⟩

/-- C4 amended: snapshots folds the static map first and then the
metric sets in the hash map's unspecified iteration order — some
permutation of the registered sets — with a name collision resolved
last-write-wins per fold step. Hence (no filter, hash-map key
uniqueness) under every admissible order the value at a name is the
one produced by the set iterated last among those producing it — so a
metric-set value always survives over a static entry of the same
name, regardless of order — and only when no set produces the name
does the static entry survive; which of several colliding sets wins
is fixed by the iteration order, not by registration order. -/
theorem c4_amended (s : RegState)
    (order : List (String × List (String × Metric))) (n : String)
    (hperm : List.Perm order s.msets)
    (hf : s.filter = none)
    (hm : (keys s.metrics).Nodup)
    (hs : ∀ p ∈ s.msets, (keys p.2).Nodup) :
    snapshots s = snapshotsWith s.msets s ∧
    alGet (snapshotsWith order s) n =
      match msetProducedLast n order with
      | some v => some v
      | none => alGet s.metrics n := by
  refine ⟨rfl, ?_⟩
  rw [alGet_snapshotsWith, hf,
    msetLastHit_acceptAll_nodup n order (fun p hp => hs p (hperm.mem_iff.mp hp)),
    lastHit_acceptAll_nodup n s.metrics hm]

/-- Witness for C4 amended at the colliding registry, instantiated at
the reversed admissible order: the survivor at "x" is the set
iterated last under that order ("s1", the one registered first). -/
theorem c4_witness :
    snapshots collideReg = snapshotsWith collideReg.msets collideReg ∧
    alGet (snapshotsWith
      [("s2", [("x", Metric.meter 2)]), ("s1", [("x", Metric.meter 1)])]
      collideReg) "x" = some (Metric.meter 1) :=
  ⟨(c4_amended collideReg
      [("s2", [("x", Metric.meter 2)]), ("s1", [("x", Metric.meter 1)])] "x"
      (by decide) rfl (by decide) (by decide)).1,
   ((c4_amended collideReg
      [("s2", [("x", Metric.meter 2)]), ("s1", [("x", Metric.meter 1)])] "x"
      (by decide) rfl (by decide) (by decide)).2).trans rfl⟩

/-- C5: the snapshot applies the filter predicate to every pair of
the static map and of every produced mapping: it equals the
accept-all snapshot of the registry with exactly the rejected pairs
removed; every value it returns was accepted; and with no filter
every static name and every produced name is present. -/
theorem c5_filter_applied (s : RegState) (n : String) :
    (∀ v, alGet (snapshots s) n = some v → acceptOf s.filter n v = true) ∧
    (snapshots s = snapshots
      { metrics := s.metrics.filter fun kv => acceptOf s.filter kv.1 kv.2,
        msets := s.msets.map fun nm =>
          (nm.1, nm.2.filter fun kv => acceptOf s.filter kv.1 kv.2),
        filter := none,
        heap := s.heap }) ∧
    (s.filter = none →
      ((alGet (snapshots s) n).isSome = true ↔
        n ∈ keys s.metrics ∨ ∃ p ∈ s.msets, n ∈ keys p.2)) := by
  refine ⟨fun v hv => ?_, ?_, fun hf => ?_⟩
  · rw [alGet_snapshots] at hv
    cases hms : msetLastHit (acceptOf s.filter) n s.msets with
    | some w =>
      rw [hms] at hv
      simp only [Option.some.injEq] at hv
      exact hv ▸ msetLastHit_some_accepted _ n s.msets w hms
    | none =>
      rw [hms] at hv
      exact lastHit_some_accepted _ n s.metrics v hv
  · unfold snapshots
    rw [foldIns_filter (acceptOf s.filter) s.metrics,
      foldSets_filter_map (acceptOf s.filter) s.msets]
  · rw [alGet_snapshots, hf]
    cases hms : msetLastHit (acceptOf none) n s.msets with
    | some w =>
      simp only [Option.isSome_some, true_iff]
      exact Or.inr ((msetLastHit_acceptAll_isSome n s.msets).mp (by rw [hms]; rfl))
    | none =>
      have hnotex : ¬∃ p ∈ s.msets, n ∈ keys p.2 := fun hex => by
        have hsome := (msetLastHit_acceptAll_isSome n s.msets).mpr hex
        rw [hms] at hsome
        simp at hsome
      rw [lastHit_acceptAll_isSome]
      constructor
      · exact Or.inl
      · rintro (h | h)
        · exact h
        · exact absurd h hnotex

/-- A registry with two meters and a filter keeping only name "a". -/
def filteredReg : RegState :=
  { metrics := [("a", Metric.meter 0), ("b", Metric.meter 1)],
    msets := [], filter := some fun k _ => k == "a",
    heap := [⟨.meter, 0, 0⟩, ⟨.meter, 0, 0⟩] }

/-- The same registry with the filter cleared. -/
def unfilteredReg : RegState :=
  { metrics := [("a", Metric.meter 0), ("b", Metric.meter 1)],
    msets := [], filter := none,
    heap := [⟨.meter, 0, 0⟩, ⟨.meter, 0, 0⟩] }

/-- Witness for C5: the surviving pair of the filtered registry was
accepted by the filter, the filtered snapshot equals the accept-all
snapshot of the pre-filtered maps, and with the filter cleared both
names are present. -/
theorem c5_witness :
    acceptOf filteredReg.filter "a" (Metric.meter 0) = true ∧
    snapshots filteredReg = snapshots
      { metrics := filteredReg.metrics.filter
          fun kv => acceptOf filteredReg.filter kv.1 kv.2,
        msets := filteredReg.msets.map fun nm =>
          (nm.1, nm.2.filter fun kv => acceptOf filteredReg.filter kv.1 kv.2),
        filter := none,
        heap := filteredReg.heap } ∧
    ((alGet (snapshots unfilteredReg) "b").isSome = true ↔
      "b" ∈ keys unfilteredReg.metrics ∨ ∃ p ∈ unfilteredReg.msets, "b" ∈ keys p.2) :=
  ⟨(c5_filter_applied filteredReg "a").1 (Metric.meter 0) rfl,
   (c5_filter_applied filteredReg "a").2.1,
   (c5_filter_applied unfilteredReg "b").2.2 rfl⟩

/-- C6: metrics-set lifecycle: with no filter, registering a provider
that produces `x` makes `x` visible in snapshots; after unregistering
the registration name, if `x` is not a static metric and no other set
produces it, `x` is gone from snapshots; and unregistering an absent
registration name is a no-op on the whole registry state. -/
theorem c6_metrics_set_lifecycle (s : RegState) (r x : String)
    (p : List (String × Metric)) :
    (s.filter = none → x ∈ keys p →
      (alGet (snapshots (register_metrics_set s r p)) x).isSome = true) ∧
    (x ∉ keys s.metrics →
      (∀ q ∈ s.msets, q.1 ≠ r → x ∉ keys q.2) →
      (keys s.msets).Nodup →
      alGet (snapshots (unregister_metrics_set s r)) x = none) ∧
    (alGet s.msets r = none → unregister_metrics_set s r = s) := by
  refine ⟨fun hf hx => ?_, fun hxs hother hnd => ?_, fun habs => ?_⟩
  · rw [alGet_snapshots]
    simp only [register_metrics_set]
    rw [hf]
    have hsome : (msetLastHit (acceptOf none) x (alInsert s.msets r p)).isSome = true :=
      (msetLastHit_acceptAll_isSome x _).mpr ⟨(r, p), mem_alInsert_self s.msets r p, hx⟩
    cases hms : msetLastHit (acceptOf none) x (alInsert s.msets r p) with
    | some v => rfl
    | none => rw [hms] at hsome; simp at hsome
  · rw [alGet_snapshots]
    have hsets : ∀ q ∈ (unregister_metrics_set s r).msets, x ∉ keys q.2 := by
      intro q hq
      have hq' : q ∈ s.msets := mem_alRemove s.msets r q hq
      exact hother q hq' (not_fst_eq_of_mem_alRemove s.msets r q hnd hq)
    rw [lastHit_of_none_forall _ x _ hsets]
    exact lastHit_of_not_mem _ x s.metrics hxs
  · have hrm : alRemove s.msets r = s.msets := by
      apply alRemove_of_not_mem
      intro hmem
      have hsome := (alGet_isSome_iff_mem s.msets r).mpr hmem
      rw [habs] at hsome
      simp at hsome
    unfold unregister_metrics_set
    rw [hrm]

/-- The provider mapping of the spec example, producing "x". -/
def xProvider : List (String × Metric) := [("x", Metric.counter 0)]

/-- Witness for C6: registering "s1" with a provider producing "x"
makes "x" visible, unregistering "s1" removes it, and unregistering
an absent name leaves the registry untouched. -/
theorem c6_witness :
    (alGet (snapshots (register_metrics_set emptyRegistry "s1" xProvider)) "x").isSome
      = true ∧
    alGet (snapshots (unregister_metrics_set
      (register_metrics_set emptyRegistry "s1" xProvider) "s1")) "x" = none ∧
    unregister_metrics_set emptyRegistry "zz" = emptyRegistry :=
  ⟨(c6_metrics_set_lifecycle emptyRegistry "s1" "x" xProvider).1 rfl (by decide),
   (c6_metrics_set_lifecycle (register_metrics_set emptyRegistry "s1" xProvider)
      "s1" "x" xProvider).2.1 (by decide) (by decide) (by decide),
   (c6_metrics_set_lifecycle emptyRegistry "zz" "x" xProvider).2.2 rfl⟩


/-- One operation never unbinds a bound static name: exhaustive over
the public surface (the accessors insert or keep, gauge replaces,
everything else leaves the static map alone). -/
theorem alGet_step_isSome (s : RegState) (op : Op) (n : String)
    (hb : (alGet s.metrics n).isSome = true) :
    (alGet (step s op).metrics n).isSome = true := by
  obtain ⟨m, hm⟩ := Option.isSome_iff_exists.mp hb
  cases op with
  | meterOp n' =>
    cases halg : alGet s.metrics n' with
    | none =>
      have hst : (step s (.meterOp n')).metrics
          = alInsert s.metrics n' (.meter s.heap.length) := by
        simp [step, meter, meterLookup, halg, meterInsertNew]
      rw [hst]
      by_cases hne : n' = n
      · subst hne
        simp [alGet_alInsert_self]
      · rw [alGet_alInsert_ne s.metrics n' n _ hne, hm]
        rfl
    | some v =>
      have hst : step s (.meterOp n') = s := by
        cases v <;> simp [step, meter, meterLookup, halg]
      rw [hst, hm]
      rfl
  | histogramOp n' =>
    cases halg : alGet s.metrics n' with
    | none =>
      have hst : (step s (.histogramOp n')).metrics
          = alInsert s.metrics n' (.histogram s.heap.length) := by
        simp [step, histogram, halg]
      rw [hst]
      by_cases hne : n' = n
      · subst hne
        simp [alGet_alInsert_self]
      · rw [alGet_alInsert_ne s.metrics n' n _ hne, hm]
        rfl
    | some v =>
      have hst : step s (.histogramOp n') = s := by
        cases v <;> simp [step, histogram, halg]
      rw [hst, hm]
      rfl
  | counterOp n' =>
    cases halg : alGet s.metrics n' with
    | none =>
      have hst : (step s (.counterOp n')).metrics
          = alInsert s.metrics n' (.counter s.heap.length) := by
        simp [step, counter, halg]
      rw [hst]
      by_cases hne : n' = n
      · subst hne
        simp [alGet_alInsert_self]
      · rw [alGet_alInsert_ne s.metrics n' n _ hne, hm]
        rfl
    | some v =>
      have hst : step s (.counterOp n') = s := by
        cases v <;> simp [step, counter, halg]
      rw [hst, hm]
      rfl
  | timerOp n' =>
    cases halg : alGet s.metrics n' with
    | none =>
      have hst : (step s (.timerOp n')).metrics
          = alInsert s.metrics n' (.timer s.heap.length) := by
        simp [step, timer, halg]
      rw [hst]
      by_cases hne : n' = n
      · subst hne
        simp [alGet_alInsert_self]
      · rw [alGet_alInsert_ne s.metrics n' n _ hne, hm]
        rfl
    | some v =>
      have hst : step s (.timerOp n') = s := by
        cases v <;> simp [step, timer, halg]
      rw [hst, hm]
      rfl
  | gaugeOp n' f =>
    by_cases hne : n' = n
    · subst hne
      simp [step, gauge, alGet_alInsert_self]
    · show (alGet (gauge s n' f).metrics n).isSome = true
      simp only [gauge]
      rw [alGet_alInsert_ne s.metrics n' n _ hne, hm]
      rfl
  | setFilterOp f => exact hb
  | registerSetOp n' ms => exact hb
  | unregisterSetOp n' => exact hb
  | snapshotsOp => exact hb

/-- One operation that is not a gauge registration under `n`
preserves the exact metric bound to `n`. -/
theorem alGet_step_preserved (s : RegState) (op : Op) (n : String) (m : Metric)
    (hb : alGet s.metrics n = some m) (hg : op.isGaugeOn n = false) :
    alGet (step s op).metrics n = some m := by
  cases op with
  | meterOp n' =>
    cases halg : alGet s.metrics n' with
    | none =>
      have hne : n' ≠ n := fun he => by rw [he, hb] at halg; cases halg
      have hst : (step s (.meterOp n')).metrics
          = alInsert s.metrics n' (.meter s.heap.length) := by
        simp [step, meter, meterLookup, halg, meterInsertNew]
      rw [hst, alGet_alInsert_ne s.metrics n' n _ hne]
      exact hb
    | some v =>
      have hst : step s (.meterOp n') = s := by
        cases v <;> simp [step, meter, meterLookup, halg]
      rw [hst]
      exact hb
  | histogramOp n' =>
    cases halg : alGet s.metrics n' with
    | none =>
      have hne : n' ≠ n := fun he => by rw [he, hb] at halg; cases halg
      have hst : (step s (.histogramOp n')).metrics
          = alInsert s.metrics n' (.histogram s.heap.length) := by
        simp [step, histogram, halg]
      rw [hst, alGet_alInsert_ne s.metrics n' n _ hne]
      exact hb
    | some v =>
      have hst : step s (.histogramOp n') = s := by
        cases v <;> simp [step, histogram, halg]
      rw [hst]
      exact hb
  | counterOp n' =>
    cases halg : alGet s.metrics n' with
    | none =>
      have hne : n' ≠ n := fun he => by rw [he, hb] at halg; cases halg
      have hst : (step s (.counterOp n')).metrics
          = alInsert s.metrics n' (.counter s.heap.length) := by
        simp [step, counter, halg]
      rw [hst, alGet_alInsert_ne s.metrics n' n _ hne]
      exact hb
    | some v =>
      have hst : step s (.counterOp n') = s := by
        cases v <;> simp [step, counter, halg]
      rw [hst]
      exact hb
  | timerOp n' =>
    cases halg : alGet s.metrics n' with
    | none =>
      have hne : n' ≠ n := fun he => by rw [he, hb] at halg; cases halg
      have hst : (step s (.timerOp n')).metrics
          = alInsert s.metrics n' (.timer s.heap.length) := by
        simp [step, timer, halg]
      rw [hst, alGet_alInsert_ne s.metrics n' n _ hne]
      exact hb
    | some v =>
      have hst : step s (.timerOp n') = s := by
        cases v <;> simp [step, timer, halg]
      rw [hst]
      exact hb
  | gaugeOp n' f =>
    simp only [Op.isGaugeOn, decide_eq_false_iff_not] at hg
    show alGet (gauge s n' f).metrics n = some m
    simp only [gauge]
    rw [alGet_alInsert_ne s.metrics n' n _ hg]
    exact hb
  | setFilterOp f => exact hb
  | registerSetOp n' ms => exact hb
  | unregisterSetOp n' => exact hb
  | snapshotsOp => exact hb

theorem alGet_steps_isSome (s : RegState) (ops : List Op) (n : String)
    (hb : (alGet s.metrics n).isSome = true) :
    (alGet (steps s ops).metrics n).isSome = true := by
  induction ops generalizing s with
  | nil => exact hb
  | cons op rest ih => exact ih (step s op) (alGet_step_isSome s op n hb)

theorem alGet_steps_preserved (s : RegState) (ops : List Op) (n : String) (m : Metric)
    (hb : alGet s.metrics n = some m)
    (hg : ops.all (fun op => !(op.isGaugeOn n)) = true) :
    alGet (steps s ops).metrics n = some m := by
  induction ops generalizing s with
  | nil => exact hb
  | cons op rest ih =>
    rw [List.all_cons, Bool.and_eq_true] at hg
    have hgf : op.isGaugeOn n = false := by
      have h1 := hg.1
      cases hbool : op.isGaugeOn n
      · rfl
      · rw [hbool] at h1; simp at h1
    exact ih (step s op) (alGet_step_preserved s op n m hb hgf) hg.2

/-- C7 counterexample: binding "n" as a Counter and then registering
a gauge under "n" rebinds the name from kind Counter to kind Gauge:
the claimed kind stability fails under the gauge operation. -/
theorem c7_counterexample :
    metricKindAt (steps emptyRegistry [.counterOp "n"]) "n" = some MetricKind.counter ∧
    metricKindAt (steps emptyRegistry [.counterOp "n", .gaugeOp "n" 0]) "n"
      = some MetricKind.gauge :=
  ⟨rfl, rfl⟩

/-- C7 amended: once bound, a static name never becomes absent under
any operation sequence, and its bound kind is preserved by every
sequence containing no gauge registration under that name — gauge
registration, which rebinds any prior entry to kind Gauge, is the
sole exception. -/
theorem c7_amended (s : RegState) (ops : List Op) (n : String) (k : MetricKind)
    (hb : metricKindAt s n = some k) :
    (metricKindAt (steps s ops) n).isSome = true ∧
    (ops.all (fun op => !(op.isGaugeOn n)) = true →
      metricKindAt (steps s ops) n = some k) := by
  obtain ⟨m, hm, hk⟩ : ∃ m, alGet s.metrics n = some m ∧ m.kind = k := by
    unfold metricKindAt at hb
    cases halg : alGet s.metrics n with
    | none => rw [halg] at hb; cases hb
    | some m =>
      rw [halg] at hb
      simp only [Option.map_some', Option.some.injEq] at hb
      exact ⟨m, rfl, hb⟩
  constructor
  · have hsome := alGet_steps_isSome s ops n (by rw [hm]; rfl)
    unfold metricKindAt
    obtain ⟨m', hm'⟩ := Option.isSome_iff_exists.mp hsome
    rw [hm']
    rfl
  · intro hg
    unfold metricKindAt
    rw [alGet_steps_preserved s ops n m hm hg, Option.map_some', hk]

/-- Witness for C7 amended: a Counter-bound name survives a gauge-free
sequence of operations with its kind intact. -/
theorem c7_witness :
    (metricKindAt (steps (step emptyRegistry (.counterOp "n"))
        [.meterOp "x", .counterOp "n", .gaugeOp "y" 5, .unregisterSetOp "s"])
        "n").isSome = true ∧
    metricKindAt (steps (step emptyRegistry (.counterOp "n"))
        [.meterOp "x", .counterOp "n", .gaugeOp "y" 5, .unregisterSetOp "s"]) "n"
      = some MetricKind.counter :=
  ⟨(c7_amended (step emptyRegistry (.counterOp "n"))
      [.meterOp "x", .counterOp "n", .gaugeOp "y" 5, .unregisterSetOp "s"]
      "n" MetricKind.counter rfl).1,
   (c7_amended (step emptyRegistry (.counterOp "n"))
      [.meterOp "x", .counterOp "n", .gaugeOp "y" 5, .unregisterSetOp "s"]
      "n" MetricKind.counter rfl).2 (by decide)⟩

/-- C8 counterexample: the registry enforces no non-emptiness of
names: calling the meter accessor with the empty string binds the
empty string as a key of the static map. -/
theorem c8_counterexample :
    metricKindAt (steps emptyRegistry [.meterOp ""]) "" = some MetricKind.meter ∧
    "" ∈ keys (steps emptyRegistry [.meterOp ""]).metrics := by
  refine ⟨rfl, ?_⟩
  show "" ∈ keys [("", Metric.meter 0)]
  simp [keys]

/-- One operation only ever adds its own static-name argument to the
key set of the static map. -/
theorem keys_step_subset (s : RegState) (op : Op) (n : String)
    (h : n ∈ keys (step s op).metrics) :
    n ∈ keys s.metrics ∨ op.staticName = some n := by
  cases op with
  | meterOp n' =>
    cases halg : alGet s.metrics n' with
    | none =>
      have hst : (step s (.meterOp n')).metrics
          = alInsert s.metrics n' (.meter s.heap.length) := by
        simp [step, meter, meterLookup, halg, meterInsertNew]
      rw [hst] at h
      rcases mem_keys_alInsert s.metrics n' n _ h with h' | h'
      · exact Or.inl h'
      · exact Or.inr (by simp [Op.staticName, h'])
    | some v =>
      have hst : step s (.meterOp n') = s := by
        cases v <;> simp [step, meter, meterLookup, halg]
      rw [hst] at h
      exact Or.inl h
  | histogramOp n' =>
    cases halg : alGet s.metrics n' with
    | none =>
      have hst : (step s (.histogramOp n')).metrics
          = alInsert s.metrics n' (.histogram s.heap.length) := by
        simp [step, histogram, halg]
      rw [hst] at h
      rcases mem_keys_alInsert s.metrics n' n _ h with h' | h'
      · exact Or.inl h'
      · exact Or.inr (by simp [Op.staticName, h'])
    | some v =>
      have hst : step s (.histogramOp n') = s := by
        cases v <;> simp [step, histogram, halg]
      rw [hst] at h
      exact Or.inl h
  | counterOp n' =>
    cases halg : alGet s.metrics n' with
    | none =>
      have hst : (step s (.counterOp n')).metrics
          = alInsert s.metrics n' (.counter s.heap.length) := by
        simp [step, counter, halg]
      rw [hst] at h
      rcases mem_keys_alInsert s.metrics n' n _ h with h' | h'
      · exact Or.inl h'
      · exact Or.inr (by simp [Op.staticName, h'])
    | some v =>
      have hst : step s (.counterOp n') = s := by
        cases v <;> simp [step, counter, halg]
      rw [hst] at h
      exact Or.inl h
  | timerOp n' =>
    cases halg : alGet s.metrics n' with
    | none =>
      have hst : (step s (.timerOp n')).metrics
          = alInsert s.metrics n' (.timer s.heap.length) := by
        simp [step, timer, halg]
      rw [hst] at h
      rcases mem_keys_alInsert s.metrics n' n _ h with h' | h'
      · exact Or.inl h'
      · exact Or.inr (by simp [Op.staticName, h'])
    | some v =>
      have hst : step s (.timerOp n') = s := by
        cases v <;> simp [step, timer, halg]
      rw [hst] at h
      exact Or.inl h
  | gaugeOp n' f =>
    have hst : (step s (.gaugeOp n' f)).metrics
        = alInsert s.metrics n' (.gauge s.heap.length) := rfl
    rw [hst] at h
    rcases mem_keys_alInsert s.metrics n' n _ h with h' | h'
    · exact Or.inl h'
    · exact Or.inr (by simp [Op.staticName, h'])
  | setFilterOp f => exact Or.inl h
  | registerSetOp n' ms => exact Or.inl h
  | unregisterSetOp n' => exact Or.inl h
  | snapshotsOp => exact Or.inl h

/-- C8 amended: the registry never invents names: every key of the
static map after a sequence of operations is either a key of the
initial state or the name argument of some accessor or gauge call in
the sequence; no non-emptiness check exists, so keys are non-empty
exactly when the initial keys and all caller-supplied names are. -/
theorem c8_amended (s : RegState) (ops : List Op) (n : String)
    (hmem : n ∈ keys (steps s ops).metrics) :
    n ∈ keys s.metrics ∨ some n ∈ ops.map Op.staticName := by
  induction ops generalizing s with
  | nil => exact Or.inl hmem
  | cons op rest ih =>
    rcases ih (step s op) hmem with h | h
    · rcases keys_step_subset s op n h with h' | h'
      · exact Or.inl h'
      · exact Or.inr (by
          rw [List.map_cons]
          exact List.mem_cons.mpr (Or.inl h'.symm))
    · exact Or.inr (by
        rw [List.map_cons]
        exact List.mem_cons.mpr (Or.inr h))

/-- Witness for C8 amended: a key found after a run of operations is
one of the caller-supplied names. -/
theorem c8_witness :
    "b" ∈ keys (emptyRegistry).metrics ∨
      some "b" ∈ [Op.meterOp "a", Op.gaugeOp "b" 3].map Op.staticName :=
  c8_amended emptyRegistry [Op.meterOp "a", Op.gaugeOp "b" 3] "b" (by decide)

/-- The write-phase of the first of two racing creators of
"new.metric", run after both read-phases missed on the empty
registry. -/
def raceFirstWin : Nat × RegState := meterInsertNew emptyRegistry "new.metric"

/-- The write-phase of the second racing creator, run after the
first; its insert overwrites the first entry. -/
def raceSecondWin : Nat × RegState := meterInsertNew raceFirstWin.2 "new.metric"

/-- The final state after each racing caller marked once through its
own handle. -/
def raceFinal : RegState := mark (mark raceSecondWin.2 raceFirstWin.1) raceSecondWin.1

/-- C9 counterexample: under the interleaving read1, read2, write1,
write2 — possible because the read and the write phase are separate
lock acquisitions and the write phase does not re-check — both
creators miss, two distinct meters (handles 0 and 1) are created, the
map keeps only the second writer's instrument, and after each caller
marks once the map-visible count is 1, not 2: the first creator's
instrument is orphaned. -/
theorem c9_counterexample :
    meterLookup emptyRegistry "new.metric" = none ∧
    raceFirstWin.1 ≠ raceSecondWin.1 ∧
    alGet raceSecondWin.2.metrics "new.metric" = some (Metric.meter raceSecondWin.1) ∧
    marksOf raceFinal raceSecondWin.1 = 1 ∧
    marksOf raceFinal raceFirstWin.1 = 1 :=
  ⟨rfl, by decide, by decide, by decide, by decide⟩

/-- One sequential caller: get-or-create the meter, then mark once
through the returned handle. -/
def seqMeterMark (n : String) (s : RegState) : RegState :=
  match meter s n with
  | .ok p => mark p.2 p.1
  | .error _ => s

/-- N sequential (non-overlapping) callers starting from the empty
registry. -/
def seqCallers (n : String) : Nat → RegState
  | 0 => emptyRegistry
  | k + 1 => seqMeterMark n (seqCallers n k)

/-- Closed form of the sequential run: a single meter instrument
carrying all the marks. -/
theorem seqCallers_closed (n : String) (k : Nat) :
    seqCallers n (k + 1)
      = { metrics := [(n, Metric.meter 0)], msets := [], filter := none,
          heap := [⟨MetricKind.meter, k + 1, 0⟩] } := by
  induction k with
  | zero => rfl
  | succ k ih =>
    show seqMeterMark n (seqCallers n (k + 1)) = _
    rw [ih]
    simp [seqMeterMark, meter, meterLookup, alGet, mark, markHeap]

/-- C9 amended: when the N callers do not interleave (each call
completes before the next begins), every caller receives the single
instrument created by the first (handle 0), and after each marks once
the map-visible count equals N — the claimed convergence holds
sequentially, while the interleaved execution refutes it. -/
theorem c9_amended (n : String) (N : Nat) :
    alGet (seqCallers n (N + 1)).metrics n = some (Metric.meter 0) ∧
    marksOf (seqCallers n (N + 1)) 0 = N + 1 := by
  rw [seqCallers_closed]
  constructor
  · simp [alGet]
  · rfl

/-- Witness for C3: registering a gauge over a Counter-bound name
rebinds it to the new gauge, leaves other names alone, a second
registration wins, and the snapshot shows the new gauge. -/
theorem c3_witness :
    metricKindAt (gauge oneCounterGReg "g" 7) "g" = some MetricKind.gauge ∧
    gaugeFnAt (gauge oneCounterGReg "g" 7) "g" = some 7 ∧
    gaugeFnAt (gauge (gauge oneCounterGReg "g" 7) "g" 9) "g" = some 9 ∧
    alGet (gauge oneCounterGReg "g" 7).metrics "x" = alGet oneCounterGReg.metrics "x" ∧
    alGet (snapshots (gauge oneCounterGReg "g" 7)) "g" = some (Metric.gauge 1) :=
  ⟨(c3_gauge_replaces oneCounterGReg "g" 7).1,
   (c3_gauge_replaces oneCounterGReg "g" 7).2.1,
   (c3_gauge_replaces (gauge oneCounterGReg "g" 7) "g" 9).2.1,
   (c3_gauge_replaces oneCounterGReg "g" 7).2.2.1 "x" (by decide),
   (c3_gauge_replaces oneCounterGReg "g" 7).2.2.2 rfl rfl (by decide)⟩

end Metriki
